import Mathlib

/-!
# A verification development of the drag-and-drop interaction engine

This file embeds, in Lean 4, the drag-and-drop engine of the repository:

* the geometry utilities (`src/.../lib/dnd/utils.ts`);
* the drag coordinator (`src/.../lib/dnd/context.tsx`): `startDrag`,
  `updateDrag`, `endDrag`, `cancelDrag`, `setOverDropZone`, plus the
  Escape-key handler;
* the draggable controller (`src/.../lib/dnd/useDraggable.ts`):
  activation constraints (distance / delay / tolerance), the pending
  state, keyboard pick-up;
* the drop-zone controller (`useDropZone.ts`): the reactive drag-state
  effect maintaining `isOver` / `canDrop`, and the capture-phase drop
  handler run on release.

Numbers are embedded as `ℚ`.  The only numeric operation of the source
that leaves `ℚ` is `Math.sqrt` inside `distance`; every use of
`distance` in the engine is a comparison against a threshold, so those
comparisons are embedded by their exact square characterisations
(`distGtB`, `distGeB` below), which coincide with the real-valued
comparisons for every rational input.

Effects (provider callbacks, drop-zone callbacks, coordinator commands)
are made explicit: operations return the successor state together with
the list of emitted events, and controller handlers return the list of
coordinator commands they issue.
-/

namespace DnD

/-- A 2D coordinate point (`Point` of `types.ts`). -/
structure Point where
  x : ℚ
  y : ℚ
deriving DecidableEq

/-- Rectangle bounds (`Rect` of `types.ts`).  The source keeps all six
fields; `width`/`height` are not derived from the edges by the type, so
neither are they here. -/
structure Rect where
  top : ℚ
  left : ℚ
  right : ℚ
  bottom : ℚ
  width : ℚ
  height : ℚ
deriving DecidableEq

/-- The `delta(from, to)` of `utils.ts`: componentwise difference. -/
def delta (p q : Point) : Point :=
  ⟨q.x - p.x, q.y - p.y⟩

/-- The squared distance between two points; the source's
`distance(a, b)` is `Math.sqrt` of this quantity. -/
def distSq (a b : Point) : ℚ :=
  (b.x - a.x) ^ 2 + (b.y - a.y) ^ 2

/-- The `distance a b > t`, embedded exactly: for `t < 0` the comparison of
the nonnegative square root is always true, otherwise it is the
comparison of the squares. -/
def distGtB (a b : Point) (t : ℚ) : Bool :=
  if t < 0 then true else decide (t ^ 2 < distSq a b)

/-- The `distance a b ≥ t`, embedded exactly by squares (see `distGtB`). -/
def distGeB (a b : Point) (t : ℚ) : Bool :=
  if t ≤ 0 then true else decide (t ^ 2 ≤ distSq a b)

/-- The `isPointInRect` of `utils.ts`: containment with `>=` / `<=` on all
four edges. -/
def isPointInRect (pt : Point) (rect : Rect) : Bool :=
  decide (rect.left ≤ pt.x) && decide (pt.x ≤ rect.right) &&
    decide (rect.top ≤ pt.y) && decide (pt.y ≤ rect.bottom)

/-- The `intersectionArea` of `utils.ts`:
`max(0, min(a.right,b.right) - max(a.left,b.left))` times the analogous
vertical overlap. -/
def intersectionArea (a b : Rect) : ℚ :=
  max 0 (min a.right b.right - max a.left b.left) *
    max 0 (min a.bottom b.bottom - max a.top b.top)

/-- The `intersectionRatio` of `utils.ts`:
`aArea > 0 ? area / aArea : 0` where `aArea = a.width * a.height`. -/
def intersectionRatio (a b : Rect) : ℚ :=
  if 0 < a.width * a.height then intersectionArea a b / (a.width * a.height)
  else 0

/-- A `Rect` whose `width`/`height` fields agree with its edges, as
every rect produced by `getRect` does. -/
def Rect.Consistent (r : Rect) : Prop :=
  r.width = r.right - r.left ∧ r.height = r.bottom - r.top

end DnD

namespace DnD

/-- Claim **C9.** Point-in-rectangle containment, the hit test backing every
drop-zone "over" decision, is edge-inclusive on all four sides:
`isPointInRect p r` returns `true` exactly when
`left ≤ p.x ≤ right` and `top ≤ p.y ≤ bottom`, so a pointer lying
exactly on the rectangle's boundary counts as over the target. -/
theorem C9_isPointInRect_edge_inclusive (p : Point) (r : Rect) :
    isPointInRect p r = true ↔
      (r.left ≤ p.x ∧ p.x ≤ r.right ∧ r.top ≤ p.y ∧ p.y ≤ r.bottom) := by
  simp [ isPointInRect, and_assoc]

/-- Claim **C10.** `intersectionRatio a b` is total and never divides by zero:
it equals `intersectionArea a b / (a.width * a.height)` whenever the
first rectangle's area is positive, and `0` whenever that area is zero
or negative; and for consistent rectangles the result is the overlap
fraction of the first rectangle, lying in `[0, 1]`. -/
theorem C10_intersectionRatio_total (a b : Rect) :
    (0 < a.width * a.height →
      intersectionRatio a b = intersectionArea a b / (a.width * a.height)) ∧
    (a.width * a.height ≤ 0 → intersectionRatio a b = 0) ∧
    (a.Consistent → b.Consistent →
      0 ≤ intersectionRatio a b ∧ intersectionRatio a b ≤ 1) := by
  refine ⟨fun h => by simp [ intersectionRatio, h], fun h => by
    simp [ intersectionRatio, not_lt.mpr h], fun ha hb => ?_⟩
  obtain ⟨haw, hah⟩ := ha
  by_cases hpos : 0 < a.width * a.height
  · have harea : 0 ≤ intersectionArea a b :=
      mul_nonneg (le_max_left _ _) (le_max_left _ _)
    have hle : intersectionArea a b ≤ a.width * a.height := by
      rcases mul_pos_iff.mp hpos with ⟨hw, hh⟩ | ⟨hw, hh⟩
      · have hx : max 0 (min a.right b.right - max a.left b.left) ≤ a.width := by
          refine max_le hw.le ?_
          rw [haw]
          have h1 := min_le_left a.right b.right
          have h2 := le_max_left a.left b.left
          linarith
        have hy : max 0 (min a.bottom b.bottom - max a.top b.top) ≤ a.height := by
          refine max_le hh.le ?_
          rw [hah]
          have h1 := min_le_left a.bottom b.bottom
          have h2 := le_max_left a.top b.top
          linarith
        exact mul_le_mul hx hy (le_max_left _ _) hw.le
      · have hx0 : max 0 (min a.right b.right - max a.left b.left) = 0 := by
          refine max_eq_left ?_
          have h1 := min_le_left a.right b.right
          have h2 := le_max_left a.left b.left
          have : a.right - a.left < 0 := by rw [← haw]; exact hw
          linarith
        simp only [ intersectionArea, hx0, zero_mul]
        exact hpos.le
    constructor
    · simp only [ intersectionRatio, if_pos hpos]
      exact div_nonneg harea hpos.le
    · simp only [ intersectionRatio, if_pos hpos]
      rw [div_le_one hpos]
      exact hle
  · simp [ intersectionRatio, hpos]

/-- Witness for C10 at concrete rectangles: `a = [0,2]×[0,2]`,
`b = [1,3]×[1,3]`; the first area is positive and the ratio is the
overlap fraction `1/4`. -/
theorem C10_intersectionRatio_total_witness :
    (0 < (2:ℚ) * 2 ∧
      intersectionRatio ⟨0, 0, 2, 2, 2, 2⟩ ⟨1, 1, 3, 3, 2, 2⟩ =
        intersectionArea ⟨0, 0, 2, 2, 2, 2⟩ ⟨1, 1, 3, 3, 2, 2⟩ / ((2:ℚ) * 2)) ∧
    (0 ≤ intersectionRatio ⟨0, 0, 2, 2, 2, 2⟩ ⟨1, 1, 3, 3, 2, 2⟩ ∧
      intersectionRatio ⟨0, 0, 2, 2, 2, 2⟩ ⟨1, 1, 3, 3, 2, 2⟩ ≤ 1) :=
  ⟨⟨by norm_num,
    (C10_intersectionRatio_total ⟨0, 0, 2, 2, 2, 2⟩ ⟨1, 1, 3, 3, 2, 2⟩).1
      (by norm_num)⟩,
    (C10_intersectionRatio_total ⟨0, 0, 2, 2, 2, 2⟩ ⟨1, 1, 3, 3, 2, 2⟩).2.2
      ⟨by norm_num, by norm_num⟩ ⟨by norm_num, by norm_num⟩⟩

end DnD

namespace DnD

/-! ## Drag coordinator (`context.tsx`)

The coordinator owns a single `DragState`.  Each operation is embedded
as a function from the previous state to the successor state together
with the list of provider callbacks (`onDragStart` / `onDragMove` /
`onDragEnd`) it fires. -/

/-- The `DragPhase` of `types.ts`. -/
inductive DragPhase where
  | idle
  | pending
  | dragging
  | dropping
deriving DecidableEq

/-- The `DragData` of `types.ts`: id, drag type tag, opaque payload. -/
structure DragData (T : Type) where
  id : String
  type : String
  payload : T
deriving DecidableEq

/-- The `DragState` of `types.ts`. -/
structure DragState (T : Type) where
  phase : DragPhase
  isDragging : Bool
  data : Option (DragData T)
  position : Option Point
  initialPosition : Option Point
  offset : Point
  delta : Point
  overDropZoneId : Option String
deriving DecidableEq

/-- The `INITIAL_DRAG_STATE` of `types.ts`. -/
def INITIAL_DRAG_STATE {T : Type} : DragState T :=
  { phase := .idle
    isDragging := false
    data := none
    position := none
    initialPosition := none
    offset := ⟨0, 0⟩
    delta := ⟨0, 0⟩
    overDropZoneId := none }

/-- The provider callbacks of `DnDProviderConfig`, recorded as events. -/
inductive DragEvent (T : Type) where
  | dragStart (data : DragData T) (position : Point)
  | dragMove (data : DragData T) (position : Point) (delta : Point)
  | dragEnd (data : DragData T) (position : Option Point)
      (dropZoneId : Option String) (cancelled : Bool)
deriving DecidableEq

variable {T : Type}

/-- The `startDrag` of `context.tsx`: unconditionally installs a fresh
`dragging` state and fires `onDragStart`. -/
def startDrag (_s : DragState T) (data : DragData T) (position offset : Point) :
    DragState T × List (DragEvent T) :=
  ({ phase := .dragging
     isDragging := true
     data := some data
     position := some position
     initialPosition := some position
     offset := offset
     delta := ⟨0, 0⟩
     overDropZoneId := none },
   [.dragStart data position])

/-- The `updateDrag` of `context.tsx`: returns the previous state untouched
unless `isDragging` holds and `initialPosition` is present; otherwise
recomputes `delta`, stores the new position, and fires `onDragMove`
when `data` is present. -/
def updateDrag (s : DragState T) (position : Point) :
    DragState T × List (DragEvent T) :=
  if s.isDragging = true then
    match s.initialPosition with
    | none => (s, [])
    | some ip =>
      let newDelta := delta ip position
      ({ s with position := some position, delta := newDelta },
       match s.data with
       | some d => [.dragMove d position newDelta]
       | none => [])
  else (s, [])

/-- The `endDrag` of `context.tsx`: fires `onDragEnd` (with
`cancelled = false` and the currently hovered drop-zone id) when `data`
is present, then resets to `INITIAL_DRAG_STATE`. -/
def endDrag (s : DragState T) : DragState T × List (DragEvent T) :=
  (INITIAL_DRAG_STATE,
   match s.data with
   | some d => [.dragEnd d s.position s.overDropZoneId false]
   | none => [])

/-- The `cancelDrag` of `context.tsx`: fires `onDragEnd` with
`cancelled = true` and `dropZoneId = null` when `data` is present, then
resets to `INITIAL_DRAG_STATE`. -/
def cancelDrag (s : DragState T) : DragState T × List (DragEvent T) :=
  (INITIAL_DRAG_STATE,
   match s.data with
   | some d => [.dragEnd d s.position none true]
   | none => [])

/-- The `setOverDropZone` of `context.tsx`: no-op when unchanged, else
overwrites the hovered drop-zone id. -/
def setOverDropZone (s : DragState T) (id : Option String) : DragState T :=
  if s.overDropZoneId = id then s else { s with overDropZoneId := id }

/-- Drag states reachable from `INITIAL_DRAG_STATE` by any sequence of
coordinator operations. -/
inductive Reachable : DragState T → Prop where
  | init : Reachable INITIAL_DRAG_STATE
  | step_start {s : DragState T} (d : DragData T) (p o : Point) :
      Reachable s → Reachable (startDrag s d p o).1
  | step_update {s : DragState T} (p : Point) :
      Reachable s → Reachable (updateDrag s p).1
  | step_end {s : DragState T} :
      Reachable s → Reachable (endDrag s).1
  | step_cancel {s : DragState T} :
      Reachable s → Reachable (cancelDrag s).1
  | step_setOver {s : DragState T} (i : Option String) :
      Reachable s → Reachable (setOverDropZone s i)

/-- The coordinator invariant that actually holds on every reachable
state (see `C7_reachable_invariant`); it additionally records the
facts about `isDragging`, `phase` and `data` used by other proofs. -/
def CoordInv (s : DragState T) : Prop :=
  (s.isDragging = true ↔ s.phase = .dragging) ∧
  (s.phase = .dragging ∨ s.phase = .idle) ∧
  (s.phase = .dragging →
    s.data ≠ none ∧ s.position ≠ none ∧ s.initialPosition ≠ none) ∧
  (s.phase = .idle →
    s.data = none ∧ s.position = none ∧ s.initialPosition = none ∧
      s.delta = ⟨0, 0⟩ ∧ s.offset = ⟨0, 0⟩)

theorem coordInv_initial : CoordInv (INITIAL_DRAG_STATE (T := T)) := by
  refine ⟨by simp [INITIAL_DRAG_STATE], Or.inr rfl, ?_, ?_⟩ <;>
    simp [INITIAL_DRAG_STATE]

theorem coordInv_start (s : DragState T) (d : DragData T) (p o : Point) :
    CoordInv (startDrag s d p o).1 := by
  refine ⟨by simp [startDrag], Or.inl rfl, ?_, ?_⟩ <;> simp [startDrag]

theorem coordInv_update {s : DragState T} (p : Point) (h : CoordInv s) :
    CoordInv (updateDrag s p).1 := by
  obtain ⟨h1, h2, h3, h4⟩ := h
  unfold updateDrag
  split
  · rename_i hdrag
    cases hip : s.initialPosition with
    | none => exact ⟨h1, h2, h3, h4⟩
    | some ip =>
      have hph : s.phase = .dragging := h1.mp hdrag
      refine ⟨by simpa using h1, by simp [hph], ?_, ?_⟩
      · intro _
        exact ⟨(h3 hph).1, by simp, by simp [hip]⟩
      · intro hidle
        simp only [] at hidle
        rw [hph] at hidle
        cases hidle
  · exact ⟨h1, h2, h3, h4⟩

theorem coordInv_end (s : DragState T) : CoordInv (endDrag s).1 := by
  simpa [endDrag] using coordInv_initial

theorem coordInv_cancel (s : DragState T) : CoordInv (cancelDrag s).1 := by
  simpa [cancelDrag] using coordInv_initial

theorem coordInv_setOver {s : DragState T} (i : Option String) (h : CoordInv s) :
    CoordInv (setOverDropZone s i) := by
  obtain ⟨h1, h2, h3, h4⟩ := h
  unfold setOverDropZone
  split
  · exact ⟨h1, h2, h3, h4⟩
  · exact ⟨by simpa using h1, h2, fun hp => by
      simpa using h3 hp, fun hp => by simpa using h4 hp⟩

/-- Every reachable coordinator state satisfies `CoordInv`. -/
theorem reachable_coordInv {s : DragState T} (h : Reachable s) : CoordInv s := by
  induction h with
  | init => exact coordInv_initial
  | step_start d p o _ _ => exact coordInv_start _ d p o
  | step_update p _ ih => exact coordInv_update p ih
  | step_end _ ih => exact coordInv_end _
  | step_cancel _ ih => exact coordInv_cancel _
  | step_setOver i _ ih => exact coordInv_setOver i ih

end DnD

namespace DnD

/-! ## Claims about the coordinator: C1, C7, C8 -/

/-- A concrete dragging state used by counterexamples: payload `Unit`,
item `"a"`, picked up at `(1, 2)`. -/
def sActive : DragState Unit :=
  (startDrag INITIAL_DRAG_STATE ⟨"a", "t", ()⟩ ⟨1, 2⟩ ⟨0, 0⟩).1

/-- Claim **C1, counterexample.** With a drag already active (phase
`dragging`), a further `startDrag` is not a no-op: it changes the drag
state (new item, new positions) and fires a drag-start notification. -/
theorem C1_counterexample :
    sActive.phase = DragPhase.dragging ∧
    (startDrag sActive ⟨"b", "t", ()⟩ ⟨3, 4⟩ ⟨0, 0⟩).1 ≠ sActive ∧
    (startDrag sActive ⟨"b", "t", ()⟩ ⟨3, 4⟩ ⟨0, 0⟩).2 ≠ [] := by
  refine ⟨rfl, ?_, ?_⟩ <;> decide

/-- Claim **C1, amended.** `startDrag` never inspects the previous state: its
result is the same for every prior state, it always installs a fresh
`dragging` operation for the given item, and it always fires exactly one
drag-start notification.  A `startDrag` issued while a drag is active
therefore *replaces* the active drag (it is not a no-op); mutual
exclusion still holds structurally, because the coordinator owns a
single `DragState`, so at most one `DragOperation` exists at any
time. -/
theorem C1_startDrag_replaces (s t : DragState T) (d : DragData T)
    (p o : Point) :
    startDrag s d p o = startDrag t d p o ∧
    (startDrag s d p o).1.phase = DragPhase.dragging ∧
    (startDrag s d p o).1.data = some d ∧
    (startDrag s d p o).1.position = some p ∧
    (startDrag s d p o).1.initialPosition = some p ∧
    (startDrag s d p o).1.delta = ⟨0, 0⟩ ∧
    (startDrag s d p o).2 = [DragEvent.dragStart d p] :=
  ⟨rfl, rfl, rfl, rfl, rfl, rfl, rfl⟩

/-- Claim **C7, counterexample.** The claimed invariant includes "`idle`
implies no drop zone is hovered", but `setOverDropZone` is
state-independent: applied with a non-null id to the initial (idle)
state it yields a reachable idle state whose hovered-target field is
set. -/
theorem C7_counterexample :
    Reachable (setOverDropZone (INITIAL_DRAG_STATE (T := Unit)) (some "z")) ∧
    (setOverDropZone (INITIAL_DRAG_STATE (T := Unit)) (some "z")).phase =
      DragPhase.idle ∧
    (setOverDropZone (INITIAL_DRAG_STATE (T := Unit)) (some "z")).overDropZoneId ≠
      none :=
  ⟨Reachable.step_setOver _ Reachable.init, by decide, by decide⟩

/-- Claim **C7, amended.** Every state reachable from the initial state by any
sequence of coordinator operations satisfies: the coordinator holds a
single `DragState` (so at most one `DragOperation` is ever active); if
the phase is `dragging` then the current position and the initial
position are both defined; if the phase is `idle` then `position` and
`initialPosition` are null and `delta` and `offset` are zero.  (The
hovered-target field is *not* cleared in `idle` in general: a
`setOverDropZone` with a non-null id while idle records it, see the
counterexample; it is cleared by `endDrag`/`cancelDrag` themselves.) -/
theorem C7_reachable_invariant {s : DragState T} (h : Reachable s) :
    (s.phase = DragPhase.dragging →
      s.position ≠ none ∧ s.initialPosition ≠ none) ∧
    (s.phase = DragPhase.idle →
      s.position = none ∧ s.initialPosition = none ∧
        s.delta = ⟨0, 0⟩ ∧ s.offset = ⟨0, 0⟩) := by
  obtain ⟨_, _, h3, h4⟩ := reachable_coordInv h
  exact ⟨fun hp => ⟨(h3 hp).2.1, (h3 hp).2.2⟩,
    fun hp => ⟨(h4 hp).2.1, (h4 hp).2.2.1, (h4 hp).2.2.2.1, (h4 hp).2.2.2.2⟩⟩

/-- Witness for C7 at a concrete reachable state: after a `startDrag`
from the initial state the phase is `dragging` and both positions are
defined. -/
theorem C7_reachable_invariant_witness :
    sActive.phase = DragPhase.dragging ∧
    sActive.position ≠ none ∧ sActive.initialPosition ≠ none :=
  ⟨rfl,
    (C7_reachable_invariant
      (Reachable.step_start ⟨"a", "t", ()⟩ ⟨1, 2⟩ ⟨0, 0⟩ Reachable.init)).1 rfl⟩

/-- Claim **C8.** `updateDrag` leaves the state unchanged (and fires nothing)
whenever no drag is active (`isDragging` false or `initialPosition`
absent); when a drag is active it stores the argument as the current
position and `delta = position − initialPosition` while leaving every
other field unchanged; and it is idempotent on the state: applying it
twice with the same position equals applying it once. -/
theorem C8_updateDrag_noop_update_idempotent (s : DragState T) (p : Point) :
    (s.isDragging = false ∨ s.initialPosition = none →
      updateDrag s p = (s, [])) ∧
    (∀ ip, s.isDragging = true → s.initialPosition = some ip →
      (updateDrag s p).1 =
        { s with position := some p, delta := delta ip p }) ∧
    (updateDrag (updateDrag s p).1 p).1 = (updateDrag s p).1 := by
  refine ⟨?_, ?_, ?_⟩
  · rintro (h | h) <;> simp [updateDrag, h]
  · intro ip hdrag hip
    simp [updateDrag, hdrag, hip]
  · by_cases hdrag : s.isDragging = true
    · cases hip : s.initialPosition with
      | none => simp [updateDrag, hdrag, hip]
      | some ip => simp [updateDrag, hdrag, hip]
    · have hd : s.isDragging = false := by
        cases hbi : s.isDragging
        · rfl
        · exact absurd hbi hdrag
      simp [updateDrag, hd]

/-- Witness for C8 at a concrete state: the no-op clause on the initial
state and the update clause on an active drag. -/
theorem C8_updateDrag_witness :
    updateDrag (INITIAL_DRAG_STATE (T := Unit)) ⟨7, 7⟩ =
      (INITIAL_DRAG_STATE, []) ∧
    (updateDrag sActive ⟨4, 6⟩).1 =
      { sActive with position := some ⟨4, 6⟩, delta := delta ⟨1, 2⟩ ⟨4, 6⟩ } :=
  ⟨(C8_updateDrag_noop_update_idempotent INITIAL_DRAG_STATE ⟨7, 7⟩).1
      (Or.inl rfl),
    (C8_updateDrag_noop_update_idempotent sActive ⟨4, 6⟩).2.1 ⟨1, 2⟩ rfl rfl⟩

end DnD

namespace DnD

/-! ## Draggable controller (`useDraggable.ts`)

The controller consumes raw input and issues coordinator commands.  Its
mutable refs (`isOurDragRef`, `pendingStartRef`) become `CtrlState`;
the armed `setTimeout` handle becomes the Boolean `timer` flag of the
pending record (`true` iff a delay timer is armed and not yet
cleared).  Handlers return the successor controller state and the list
of coordinator commands issued, to be interpreted by `applyCmd`. -/

/-- The `ActivationConstraints` of `types.ts`; absent fields are `none` and
take their defaults at each use site, exactly as the source's
destructuring defaults do. -/
structure ActivationConstraints where
  distance : Option ℚ
  delay : Option ℚ
  tolerance : Option ℚ
deriving DecidableEq

/-- The `DEFAULT_ACTIVATION` of `useDraggable.ts`. -/
def DEFAULT_ACTIVATION : ActivationConstraints :=
  ⟨some 0, some 0, some 5⟩

/-- The `DraggableConfig` of `types.ts` (with `activation` already
defaulted, as the hook's destructuring does). -/
structure DraggableConfig (T : Type) where
  id : String
  type : String
  data : T
  disabled : Bool
  activation : ActivationConstraints

/-- The contents of `pendingStartRef`: pick-up position, grab offset,
and whether a delay timer is armed. -/
structure PendingStart where
  position : Point
  offset : Point
  timer : Bool
deriving DecidableEq

/-- The controller's mutable refs: `isOurDragRef` and
`pendingStartRef`.  The React `isPending` flag always mirrors
`pending.isSome`. -/
structure CtrlState where
  isOurDrag : Bool
  pending : Option PendingStart
deriving DecidableEq

/-- The initial controller state. -/
def ctrlInit : CtrlState := ⟨false, none⟩

/-- A coordinator command issued by a controller handler. -/
inductive CoordCmd (T : Type) where
  | start (data : DragData T) (position offset : Point)
  | update (position : Point)
  | finish
  | cancel
deriving DecidableEq

variable {T : Type}

/-- Interpret one coordinator command (`finish` is `endDrag`). -/
def applyCmd (s : DragState T) : CoordCmd T → DragState T × List (DragEvent T)
  | .start d p o => startDrag s d p o
  | .update p => updateDrag s p
  | .finish => endDrag s
  | .cancel => cancelDrag s

/-- Interpret a command list left to right, concatenating events. -/
def applyCmds (s : DragState T) : List (CoordCmd T) →
    DragState T × List (DragEvent T)
  | [] => (s, [])
  | c :: cs =>
    let r := applyCmd s c
    let r2 := applyCmds r.1 cs
    (r2.1, r.2 ++ r2.2)

/-- The `shouldActivate` of `useDraggable.ts`: `true` outright when the
configured minimum distance is `≤ 0` (also when absent, default `0`),
otherwise `distance(initialPosition, currentPosition) >= minDistance`. -/
def shouldActivate (cfg : DraggableConfig T)
    (initialPosition currentPosition : Point) : Bool :=
  let minDistance := cfg.activation.distance.getD 0
  if minDistance ≤ 0 then true
  else distGeB initialPosition currentPosition minDistance

/-- The `clearPending` of `useDraggable.ts`: clears the timer and the
pending record (and the React `isPending` flag). -/
def clearPending (c : CtrlState) : CtrlState :=
  { c with pending := none }

/-- The `handleDragStart` of `useDraggable.ts`: no-op when disabled; with no
constraints (`delay ≤ 0` and `distance ≤ 0`) marks the drag as ours and
issues `startDrag` at once; otherwise records the pending pick-up,
arming a timer iff `delay > 0`. -/
def handleDragStart (cfg : DraggableConfig T) (c : CtrlState)
    (position offset : Point) : CtrlState × List (CoordCmd T) :=
  if cfg.disabled then (c, [])
  else
    let dly := cfg.activation.delay.getD 0
    let minDistance := cfg.activation.distance.getD 0
    if dly ≤ 0 ∧ minDistance ≤ 0 then
      ({ c with isOurDrag := true },
       [.start ⟨cfg.id, cfg.type, cfg.data⟩ position offset])
    else
      ({ c with pending := some ⟨position, offset, decide (0 < dly)⟩ }, [])

/-- The `setTimeout` callback armed by `handleDragStart`: if the pending
record is still present (the timer was armed and never cleared), mark
the drag as ours, issue `startDrag` with the pick-up position and
offset, and clear the pending state. -/
def timerFire (cfg : DraggableConfig T) (c : CtrlState) :
    CtrlState × List (CoordCmd T) :=
  match c.pending with
  | some pnd =>
    if pnd.timer then
      (clearPending { c with isOurDrag := true },
       [.start ⟨cfg.id, cfg.type, cfg.data⟩ pnd.position pnd.offset])
    else (c, [])
  | none => (c, [])

/-- The `handleMove` of `useDraggable.ts`.  While pending (and the drag not
yet ours): cancel outright when a timer is armed and the movement from
the pick-up point exceeds `tolerance` (default `5`); otherwise promote
to dragging when `shouldActivate` holds, issuing `startDrag` with the
triggering position and the recorded offset.  Once the drag is ours,
every move issues `updateDrag`. -/
def handleMove (cfg : DraggableConfig T) (c : CtrlState) (position : Point) :
    CtrlState × List (CoordCmd T) :=
  match c.pending, c.isOurDrag with
  | some pnd, false =>
    let tol := cfg.activation.tolerance.getD 5
    if pnd.timer && distGtB pnd.position position tol then
      (clearPending c, [])
    else if shouldActivate cfg pnd.position position then
      (clearPending { c with isOurDrag := true },
       [.start ⟨cfg.id, cfg.type, cfg.data⟩ position pnd.offset])
    else (c, [])
  | _, _ =>
    if c.isOurDrag then (c, [.update position]) else (c, [])

/-- The `handleDragEnd` of `useDraggable.ts`: clear the pending state, and
if the drag is ours, relinquish it and issue `endDrag`. -/
def handleDragEnd (c : CtrlState) : CtrlState × List (CoordCmd T) :=
  if c.isOurDrag then ({ isOurDrag := false, pending := none }, [.finish])
  else (clearPending c, [])

/-- The `handleCancel` of `useDraggable.ts` (touch-cancel): like
`handleDragEnd` but issues `cancelDrag`. -/
def handleCancel (c : CtrlState) : CtrlState × List (CoordCmd T) :=
  if c.isOurDrag then ({ isOurDrag := false, pending := none }, [.cancel])
  else (clearPending c, [])

/-- The `handleKeyDown` of `useDraggable.ts`: on Space or Enter (and not
disabled), synthesise the pointer position as the element's geometric
center and the grab offset as half its extents, then run the common
`handleDragStart` path. -/
def handleKeyDown (cfg : DraggableConfig T) (c : CtrlState) (key : String)
    (rect : Rect) : CtrlState × List (CoordCmd T) :=
  if cfg.disabled then (c, [])
  else if key = " " ∨ key = "Enter" then
    handleDragStart cfg c
      ⟨rect.left + rect.width / 2, rect.top + rect.height / 2⟩
      ⟨rect.width / 2, rect.height / 2⟩
  else (c, [])

end DnD

namespace DnD

/-! ## Claims about the draggable controller: C3, C4, C5 -/

/-- The draggable of C3: `activation = {delay: 300, tolerance: 5}`, no
distance constraint. -/
def cfgDelayTol : DraggableConfig Unit :=
  ⟨"b1", "block", (), false, ⟨none, some 300, some 5⟩⟩

/-- The pending controller state right after pick-up at `(0,0)` under
`cfgDelayTol`: timer armed. -/
def pendDelayTol : CtrlState := ⟨false, some ⟨⟨0, 0⟩, ⟨0, 0⟩, true⟩⟩

/-- Claim **C3, evaluation at the failing input.**  With
`activation = {delay: 300, tolerance: 5}`: pick-up at `(0,0)` enters the
pending state with the timer armed and issues nothing; but the very
first move within tolerance — to `(3,4)`, movement `5 ≤ 5`, before the
timer fires — already promotes to dragging (`shouldActivate` returns
`true` because the absent distance constraint defaults to `0 ≤ 0`),
issuing `startDrag` instead of leaving the operation pending as the
claim (and the source's own "check distance activation" /
"tolerance ... during delay" comments) require.  The second half of the
claim does hold: a move beyond tolerance — to `(6,8)`, movement
`10 > 5` — cancels the pending state outright, after which the timer
callback finds no pending record and no drag ever starts. -/
theorem C3_delay_tolerance_evaluation :
    handleDragStart cfgDelayTol ctrlInit ⟨0, 0⟩ ⟨0, 0⟩ = (pendDelayTol, []) ∧
    handleMove cfgDelayTol pendDelayTol ⟨3, 4⟩ =
      (⟨true, none⟩, [CoordCmd.start ⟨"b1", "block", ()⟩ ⟨3, 4⟩ ⟨0, 0⟩]) ∧
    handleMove cfgDelayTol pendDelayTol ⟨6, 8⟩ = (⟨false, none⟩, []) ∧
    timerFire cfgDelayTol ⟨false, none⟩ = (⟨false, none⟩, []) := by
  refine ⟨?_, ?_, ?_, ?_⟩ <;>
    norm_num [handleDragStart, handleMove, timerFire, shouldActivate,
      distGtB, distGeB, distSq, clearPending, cfgDelayTol, pendDelayTol,
      ctrlInit]

/-- The draggable of the C4 counterexample: a delay constraint of
300ms. -/
def cfgDelayOnly : DraggableConfig Unit :=
  ⟨"k", "t", (), false, ⟨none, some 300, none⟩⟩

/-- Claim **C4, counterexample.** For an enabled draggable with
`activation = {delay: 300}`, a primary-action key press does *not*
immediately call `startDrag`: it issues no coordinator command and puts
the controller into the pending state (with the element-center position
and half-extent offset recorded and the timer armed), because
`handleKeyDown` funnels into the same activation logic as pointer
pick-up. -/
theorem C4_counterexample :
    handleKeyDown cfgDelayOnly ctrlInit "Enter" ⟨0, 0, 100, 50, 100, 50⟩ =
      (⟨false, some ⟨⟨50, 25⟩, ⟨50, 25⟩, true⟩⟩, []) ∧
    (handleKeyDown cfgDelayOnly ctrlInit "Enter" ⟨0, 0, 100, 50, 100, 50⟩).2
      = [] ∧
    (handleKeyDown cfgDelayOnly ctrlInit "Enter"
      ⟨0, 0, 100, 50, 100, 50⟩).1.pending ≠ none := by
  have h1 : handleKeyDown cfgDelayOnly ctrlInit "Enter"
      ⟨0, 0, 100, 50, 100, 50⟩ =
      (⟨false, some ⟨⟨50, 25⟩, ⟨50, 25⟩, true⟩⟩, []) := by
    norm_num [handleKeyDown, handleDragStart, cfgDelayOnly, ctrlInit]
  exact ⟨h1, by rw [h1], by rw [h1]; exact fun h => Option.noConfusion h⟩

/-- Claim **C4, amended.** For every enabled draggable controller, a
primary-action key press (Space or Enter) synthesises the pointer
position as the element's geometric center and the grab offset as half
its width and height, and then applies the ordinary activation logic:
when no activation constraint is configured (`delay ≤ 0` and
`distance ≤ 0`) it immediately calls `startDrag` with those values;
otherwise it enters the pending state recording those values (timer
armed iff `delay > 0`) and calls nothing. -/
theorem C4_keyboard_activation (cfg : DraggableConfig T) (c : CtrlState)
    (key : String) (rect : Rect)
    (hd : cfg.disabled = false) (hk : key = " " ∨ key = "Enter") :
    (cfg.activation.delay.getD 0 ≤ 0 ∧ cfg.activation.distance.getD 0 ≤ 0 →
      handleKeyDown cfg c key rect =
        ({ c with isOurDrag := true },
         [CoordCmd.start ⟨cfg.id, cfg.type, cfg.data⟩
           ⟨rect.left + rect.width / 2, rect.top + rect.height / 2⟩
           ⟨rect.width / 2, rect.height / 2⟩])) ∧
    (¬ (cfg.activation.delay.getD 0 ≤ 0 ∧ cfg.activation.distance.getD 0 ≤ 0) →
      handleKeyDown cfg c key rect =
        ({ c with pending := some (⟨⟨rect.left + rect.width / 2,
              rect.top + rect.height / 2⟩,
             ⟨rect.width / 2, rect.height / 2⟩,
             decide (0 < cfg.activation.delay.getD 0)⟩ : PendingStart) },
         [])) := by
  constructor
  · intro hcon
    rcases hk with hk | hk <;>
      simp [handleKeyDown, handleDragStart, hd, hk, hcon]
  · intro hcon
    rcases hk with hk | hk <;>
      simp [handleKeyDown, handleDragStart, hd, hk, hcon]

/-- Witness for C4 (amended) at a concrete unconstrained draggable:
Enter on a 100×50 element at the origin immediately issues `startDrag`
at the center `(50,25)` with offset `(50,25)`. -/
theorem C4_keyboard_activation_witness :
    handleKeyDown (⟨"k", "t", (), false, DEFAULT_ACTIVATION⟩ :
        DraggableConfig Unit)
      ctrlInit "Enter" ⟨0, 0, 100, 50, 100, 50⟩ =
      ({ ctrlInit with isOurDrag := true },
       [CoordCmd.start ⟨"k", "t", ()⟩ ⟨50, 25⟩ ⟨50, 25⟩]) := by
  have h := (C4_keyboard_activation
    (⟨"k", "t", (), false, DEFAULT_ACTIVATION⟩ : DraggableConfig Unit)
    ctrlInit "Enter" ⟨0, 0, 100, 50, 100, 50⟩ rfl (Or.inr rfl)).1
    (by constructor <;> norm_num [DEFAULT_ACTIVATION])
  rw [h]
  norm_num

end DnD

namespace DnD

variable {T : Type}

/-- The draggable of C5: `activation = {distance: 10}` and no delay. -/
def cfgDist10 : DraggableConfig Unit :=
  ⟨"b1", "block", (), false, ⟨some 10, none, none⟩⟩

/-- The pending controller state right after pick-up at `(0,0)` under
`cfgDist10`: no timer armed. -/
def pendDist10 : CtrlState := ⟨false, some ⟨⟨0, 0⟩, ⟨0, 0⟩, false⟩⟩

/-- Claim **C5, counterexample.** With `activation = {distance: 10}`, on the
first move whose movement reaches 10 units — from `(0,0)` to `(6,8)` —
the controller issues `startDrag` with the triggering position; it does
*not* call `updateDrag` with the triggering position (no `update`
command is issued on that move), contrary to the claim's last part. -/
theorem C5_counterexample :
    (handleMove cfgDist10 pendDist10 ⟨6, 8⟩).2 =
      [CoordCmd.start ⟨"b1", "block", ()⟩ ⟨6, 8⟩ ⟨0, 0⟩] ∧
    CoordCmd.update ⟨6, 8⟩ ∉ (handleMove cfgDist10 pendDist10 ⟨6, 8⟩).2 := by
  have h : handleMove cfgDist10 pendDist10 ⟨6, 8⟩ =
      (⟨true, none⟩, [CoordCmd.start ⟨"b1", "block", ()⟩ ⟨6, 8⟩ ⟨0, 0⟩]) := by
    norm_num [handleMove, shouldActivate, distGtB, distGeB, distSq,
      clearPending, cfgDist10, pendDist10]
  rw [h]
  exact ⟨rfl, by simp⟩

/-- Claim **C5, amended.** With `activation = {distance: 10}` and no delay:
pick-up enters the pending state (no timer) and issues nothing; every
move whose movement from the pick-up point is below 10 units leaves the
controller pending and issues nothing (in particular at movement 9 no
drag has begun); on the first move where the movement reaches 10 units
the controller issues `startDrag` with the triggering position (which
the coordinator installs as both the current and the initial position,
putting the phase at `dragging`); `updateDrag` is not called on that
activating move, only on subsequent moves. -/
theorem C5_distance_activation (cfg : DraggableConfig T) (p0 o pos : Point)
    (hd : cfg.disabled = false)
    (ha : cfg.activation = ⟨some 10, none, none⟩) :
    (handleDragStart cfg ctrlInit p0 o = (⟨false, some ⟨p0, o, false⟩⟩, [])) ∧
    (distSq p0 pos < 100 →
      handleMove cfg ⟨false, some ⟨p0, o, false⟩⟩ pos =
        (⟨false, some ⟨p0, o, false⟩⟩, [])) ∧
    (100 ≤ distSq p0 pos →
      handleMove cfg ⟨false, some ⟨p0, o, false⟩⟩ pos =
        (⟨true, none⟩, [CoordCmd.start ⟨cfg.id, cfg.type, cfg.data⟩ pos o]) ∧
      ∀ s : DragState T,
        (applyCmds s (handleMove cfg ⟨false, some ⟨p0, o, false⟩⟩ pos).2).1.phase
            = DragPhase.dragging ∧
        (applyCmds s (handleMove cfg ⟨false, some ⟨p0, o, false⟩⟩ pos).2).1.position
            = some pos) := by
  refine ⟨?_, ?_, ?_⟩
  · norm_num [handleDragStart, ha, hd, ctrlInit]
  · intro hlt
    have hact : shouldActivate cfg p0 pos = false := by
      simp only [shouldActivate, ha, distGeB]
      norm_num [not_le.mpr hlt]
    simp [handleMove, hact]
  · intro hge
    have hact : shouldActivate cfg p0 pos = true := by
      simp only [shouldActivate, ha, distGeB]
      norm_num [hge]
    have hm : handleMove cfg ⟨false, some ⟨p0, o, false⟩⟩ pos =
        (⟨true, none⟩, [CoordCmd.start ⟨cfg.id, cfg.type, cfg.data⟩ pos o]) := by
      simp [handleMove, hact, clearPending]
    refine ⟨hm, fun s => ?_⟩
    rw [hm]
    simp [applyCmds, applyCmd, startDrag]

/-- Witness for C5 (amended) at concrete points: pick-up at `(0,0)`,
a move to `(9,0)` (movement 9) stays pending with no command, and the
move to `(6,8)` (movement 10) issues `startDrag`, after which the
coordinator is `dragging` at position `(6,8)`. -/
theorem C5_distance_activation_witness :
    handleDragStart cfgDist10 ctrlInit ⟨0, 0⟩ ⟨0, 0⟩ = (pendDist10, []) ∧
    handleMove cfgDist10 pendDist10 ⟨9, 0⟩ = (pendDist10, []) ∧
    (handleMove cfgDist10 pendDist10 ⟨6, 8⟩ =
      (⟨true, none⟩, [CoordCmd.start ⟨"b1", "block", ()⟩ ⟨6, 8⟩ ⟨0, 0⟩]) ∧
    (applyCmds (INITIAL_DRAG_STATE (T := Unit))
        (handleMove cfgDist10 pendDist10 ⟨6, 8⟩).2).1.phase =
      DragPhase.dragging) := by
  have h := C5_distance_activation (T := Unit) cfgDist10 ⟨0, 0⟩ ⟨0, 0⟩ ⟨6, 8⟩
    rfl rfl
  have h9 := C5_distance_activation (T := Unit) cfgDist10 ⟨0, 0⟩ ⟨0, 0⟩ ⟨9, 0⟩
    rfl rfl
  have hge : (100 : ℚ) ≤ distSq ⟨0, 0⟩ ⟨6, 8⟩ := by norm_num [distSq]
  refine ⟨h.1, ?_, ?_, ?_⟩
  · exact h9.2.1 (by norm_num [distSq])
  · exact (h.2.2 hge).1
  · exact ((h.2.2 hge).2 INITIAL_DRAG_STATE).1

end DnD

namespace DnD

/-! ## Drop-zone controller (`useDropZone.ts`)

The hook's state (`dropState`, `prevIsOverRef`) becomes `ZoneState`;
its element ref becomes an `Option Rect` (none = detached, treated as
never hovered).  The reactive drag-state effect becomes `zoneEffect`,
returning the successor zone state, the fired zone callbacks, and the
`setOverDropZone` requests.  The capture-phase release listener becomes
`handleDrop`, which reads the *cached* drop state and the drag state as
they stand at release — before the draggable's own release handler
calls `endDrag`. -/

variable {T : Type}

/-- The `DropState` of `types.ts`. -/
structure DropState (T : Type) where
  isOver : Bool
  canDrop : Bool
  dragData : Option (DragData T)
deriving DecidableEq

/-- The `DropZoneConfig` of `types.ts`; `accept` is embedded as the
normalised list (`Array.isArray(accept) ? accept : [accept]`), and the
optional semantic predicate as an optional Boolean function. -/
structure DropZoneConfig (T : Type) where
  id : String
  accept : List String
  canDrop : Option (T → Bool)
  disabled : Bool

/-- The `isAcceptedType` of `useDropZone.ts`: `false` when disabled,
otherwise membership of the drag type in the accepted list. -/
def isAcceptedType (cfg : DropZoneConfig T) (ty : String) : Bool :=
  if cfg.disabled then false else cfg.accept.contains ty

/-- The `isPositionOver` of `useDropZone.ts`: `false` when the position is
null or the element is detached, otherwise the point-in-rect test on
the element's current bounds. -/
def isPositionOver (elem : Option Rect) (position : Option Point) : Bool :=
  match position, elem with
  | some p, some r => isPointInRect p r
  | _, _ => false

/-- The `checkCanDrop` of `useDropZone.ts`: `false` when disabled, the
predicate's verdict when present, `true` otherwise. -/
def checkCanDrop (cfg : DropZoneConfig T) (payload : T) : Bool :=
  if cfg.disabled then false
  else
    match cfg.canDrop with
    | some f => f payload
    | none => true

/-- The hook's per-zone mutable state: `prevIsOverRef` and
`dropState`. -/
structure ZoneState (T : Type) where
  prevIsOver : Bool
  dropState : DropState T
deriving DecidableEq

/-- The initial zone state (`INITIAL_DROP_STATE`, `prevIsOverRef`
starts `false`). -/
def zoneInit : ZoneState T := ⟨false, ⟨false, false, none⟩⟩

/-- The zone callbacks of `DropZoneConfig`, recorded as events. -/
inductive ZoneCall (T : Type) where
  | enter (payload : T)
  | over (payload : T) (position : Point)
  | leave
  | drop (payload : T) (position : Point)
deriving DecidableEq

/-- Result of one run of the drag-state effect: successor zone state,
fired callbacks, and `setOverDropZone` requests. -/
structure ZoneEffectResult (T : Type) where
  state : ZoneState T
  calls : List (ZoneCall T)
  setOver : List (Option String)

/-- The early-return branch of the effect ("not dragging or drag type
not accepted"): if the zone was over, clear everything, fire
`onDragLeave` and request `setOverDropZone(null)`. -/
def zoneEffectInactive (z : ZoneState T) : ZoneEffectResult T :=
  if z.prevIsOver then ⟨⟨false, ⟨false, false, none⟩⟩, [.leave], [none]⟩
  else ⟨z, [], []⟩

/-- The drag-state effect of `useDropZone.ts`, run on every change of
the drag state. -/
def zoneEffect (cfg : DropZoneConfig T) (elem : Option Rect)
    (z : ZoneState T) (drag : DragState T) : ZoneEffectResult T :=
  match drag.data with
  | none => zoneEffectInactive z
  | some d =>
    if drag.isDragging = false ∨ isAcceptedType cfg d.type = false then
      zoneEffectInactive z
    else
      let isOver := isPositionOver elem drag.position
      let canDropHere := isOver && checkCanDrop cfg d.payload
      if isOver ≠ z.prevIsOver then
        if isOver then
          ⟨⟨true, ⟨true, canDropHere, some d⟩⟩, [.enter d.payload],
            [some cfg.id]⟩
        else
          ⟨⟨false, ⟨false, false, none⟩⟩, [.leave], [none]⟩
      else if isOver then
        ⟨⟨z.prevIsOver, ⟨z.dropState.isOver, canDropHere, some d⟩⟩,
          match drag.position with
          | some p => [.over d.payload p]
          | none => [],
          []⟩
      else ⟨z, [], []⟩

/-- The `handleDrop` of `useDropZone.ts` (the capture-phase release
listener): fires `onDrop(payload, position)` iff the cached drop state
says over-and-accepting and the drag state still carries data and a
position. -/
def handleDrop (drop : DropState T) (drag : DragState T) : Option (T × Point) :=
  match drag.data, drag.position with
  | some d, some p =>
    if drop.isOver && drop.canDrop then some (d.payload, p) else none
  | _, _ => none

/-- The two global inputs whose dispatch order matters: a pointer/touch
release and the Escape key. -/
inductive UIEvent where
  | release
  | escape
deriving DecidableEq

/-- Result of dispatching one global input through the whole system. -/
structure SysResult (T : Type) where
  ctrl : CtrlState
  zone : ZoneState T
  drag : DragState T
  events : List (DragEvent T)
  zoneCalls : List (ZoneCall T)

/-- One global input dispatched through the system: a drop zone
(config, element, state), a draggable controller, and the coordinator.

* `.release`: the zone's capture-phase `handleDrop` runs first, against
  the drag state as it stands at release (its listener is attached only
  while a drag is active); then the draggable's release handler runs
  (`handleDragEnd`, issuing `endDrag` when it owns the drag); finally
  the zone's drag-state effect re-runs on the new drag state.
* `.escape`: the provider's keydown listener (attached only while
  dragging) calls `cancelDrag`; no release listener runs, so the
  drop-commit path is bypassed; the zone's effect then re-runs on the
  reset state. -/
def sysStep (cfg : DropZoneConfig T) (elem : Option Rect) (ctrl : CtrlState)
    (z : ZoneState T) (s : DragState T) : UIEvent → SysResult T
  | .release =>
    let dropCalls :=
      if s.isDragging then
        match handleDrop z.dropState s with
        | some (pl, p) => [ZoneCall.drop pl p]
        | none => []
      else []
    let rc := handleDragEnd (T := T) ctrl
    let rs := applyCmds s rc.2
    let rz := zoneEffect cfg elem z rs.1
    ⟨rc.1, rz.state, rs.1, rs.2, dropCalls ++ rz.calls⟩
  | .escape =>
    if s.isDragging then
      let rs := cancelDrag s
      let rz := zoneEffect cfg elem z rs.1
      ⟨ctrl, rz.state, rs.1, rs.2, rz.calls⟩
    else ⟨ctrl, z, s, [], []⟩

/-- The zone invariant maintained by `zoneEffect` from `zoneInit`:
`prevIsOverRef` mirrors `dropState.isOver`, and a zone that is not over
is not accepting and holds no drag data. -/
def ZInv (z : ZoneState T) : Prop :=
  z.prevIsOver = z.dropState.isOver ∧
  (z.dropState.isOver = false →
    z.dropState.canDrop = false ∧ z.dropState.dragData = none)

theorem zInv_init : ZInv (zoneInit (T := T)) := by
  exact ⟨rfl, fun _ => ⟨rfl, rfl⟩⟩

/-- The drag-state effect never fires `onDrop`: drops come only from
the release listener. -/
theorem zoneEffect_no_drop (cfg : DropZoneConfig T) (elem : Option Rect)
    (z : ZoneState T) (drag : DragState T) (pl : T) (p : Point) :
    ZoneCall.drop pl p ∉ (zoneEffect cfg elem z drag).calls := by
  unfold zoneEffect zoneEffectInactive
  rcases hd : drag.data with _ | d
  · simp only [hd]
    split_ifs <;> simp
  · rcases hp : drag.position with _ | q <;>
      simp only [hd, hp] <;> split_ifs <;> simp

/-- The `zoneEffect` preserves the zone invariant. -/
theorem zoneEffect_zInv (cfg : DropZoneConfig T) (elem : Option Rect)
    {z : ZoneState T} (drag : DragState T) (hz : ZInv z) :
    ZInv (zoneEffect cfg elem z drag).state := by
  obtain ⟨po, io, cd, dd⟩ := z
  obtain ⟨h1, h2⟩ := hz
  simp only [] at h1
  subst h1
  unfold zoneEffect zoneEffectInactive ZInv
  rcases hd : drag.data with _ | d
  · simp only [hd]
    split_ifs <;> simp_all
  · rcases hp : drag.position with _ | q <;>
      simp only [hd, hp] <;> split_ifs <;> simp_all

end DnD

namespace DnD

variable {T : Type}

/-- After a run of the drag-state effect on an active drag carrying
`d`, the cached drop state is exactly: over-and-accepting iff the drag
type is accepted and the pointer is geometrically over the element,
with `canDrop` the semantic verdict. -/
theorem zoneEffect_dropState_some (cfg : DropZoneConfig T) (elem : Option Rect)
    {z : ZoneState T} {s : DragState T} {d : DragData T} (hz : ZInv z)
    (hs : s.isDragging = true) (hd : s.data = some d) :
    (zoneEffect cfg elem z s).state.dropState =
      (if isAcceptedType cfg d.type && isPositionOver elem s.position then
        ⟨true, checkCanDrop cfg d.payload, some d⟩
      else (⟨false, false, none⟩ : DropState T)) := by
  obtain ⟨po, io, cd, dd⟩ := z
  obtain ⟨h1, h2⟩ := hz
  simp only [] at h1
  subst h1
  unfold zoneEffect zoneEffectInactive
  simp only [hd, hs]
  split_ifs <;> simp_all

/-- Unfolding the release dispatch: the fired zone calls are the drop
commit (when the cached state allows it) followed by the post-release
effect's calls. -/
theorem release_zoneCalls (cfg : DropZoneConfig T) (elem : Option Rect)
    (ctrl : CtrlState) (z : ZoneState T) (s : DragState T) :
    (sysStep cfg elem ctrl z s .release).zoneCalls =
      (if s.isDragging = true then
        match handleDrop z.dropState s with
        | some (pl, p) => [ZoneCall.drop pl p]
        | none => []
       else []) ++
      (zoneEffect cfg elem z
        (applyCmds s (handleDragEnd (T := T) ctrl).2).1).calls := rfl

/-- A drop call is observed at release iff a drag was active and the
capture-phase drop handler committed it. -/
theorem drop_mem_release_iff (cfg : DropZoneConfig T) (elem : Option Rect)
    (ctrl : CtrlState) (z : ZoneState T) (s : DragState T) (pl : T) (p : Point) :
    ZoneCall.drop pl p ∈ (sysStep cfg elem ctrl z s .release).zoneCalls ↔
      s.isDragging = true ∧ handleDrop z.dropState s = some (pl, p) := by
  rw [release_zoneCalls, List.mem_append]
  constructor
  · rintro (h | h)
    · by_cases hs : s.isDragging = true
      · rw [if_pos hs] at h
        refine ⟨hs, ?_⟩
        cases hmatch : handleDrop z.dropState s with
        | none => rw [hmatch] at h; cases h
        | some pr =>
          obtain ⟨a, b⟩ := pr
          rw [hmatch] at h
          simp only [List.mem_singleton] at h
          cases h
          rfl
      · rw [if_neg hs] at h
        cases h
    · exact absurd h (zoneEffect_no_drop cfg elem _ _ pl p)
  · rintro ⟨h1, h2⟩
    left
    rw [if_pos h1, h2]
    exact List.mem_singleton.mpr rfl

theorem isAcceptedType_true_iff (cfg : DropZoneConfig T) (ty : String) :
    isAcceptedType cfg ty = true ↔
      cfg.disabled = false ∧ ty ∈ cfg.accept := by
  unfold isAcceptedType
  cases hdis : cfg.disabled <;> simp

theorem checkCanDrop_true_iff (cfg : DropZoneConfig T) (payload : T) :
    checkCanDrop cfg payload = true ↔
      cfg.disabled = false ∧
        (∀ f, cfg.canDrop = some f → f payload = true) := by
  unfold checkCanDrop
  cases hdis : cfg.disabled <;> cases hcd : cfg.canDrop <;> simp [hdis, hcd]

theorem isPositionOver_some_iff (elem : Option Rect) (q : Point) :
    isPositionOver elem (some q) = true ↔
      ∃ r, elem = some r ∧ isPointInRect q r = true := by
  cases elem <;> simp [isPositionOver]

end DnD

namespace DnD

variable {T : Type}

/-- The drop handler applied to the effect-refreshed drop state fires
exactly under the geometric and semantic conditions of the release-time
drag state. -/
theorem handleDrop_after_effect_iff (cfg : DropZoneConfig T)
    (elem : Option Rect) (z0 : ZoneState T) (s : DragState T)
    (hz : ZInv z0) (hs : s.isDragging = true) (pl : T) (p : Point) :
    handleDrop (zoneEffect cfg elem z0 s).state.dropState s = some (pl, p) ↔
      ∃ d r, s.data = some d ∧ s.position = some p ∧ elem = some r ∧
        isPointInRect p r = true ∧ d.type ∈ cfg.accept ∧
        cfg.disabled = false ∧
        (∀ f, cfg.canDrop = some f → f d.payload = true) ∧
        pl = d.payload := by
  cases hd : s.data with
  | none =>
    unfold handleDrop
    rw [hd]
    simp [hd]
  | some d =>
    cases hp : s.position with
    | none =>
      unfold handleDrop
      rw [hd, hp]
      simp [hp]
    | some q =>
      have hchar := zoneEffect_dropState_some cfg elem hz hs hd
      unfold handleDrop
      rw [hd, hp, hchar]
      by_cases hC : (isAcceptedType cfg d.type &&
          isPositionOver elem s.position) = true
      · rw [if_pos hC]
        obtain ⟨hacc, hpos⟩ := Bool.and_eq_true_iff.mp hC
        rw [hp] at hpos
        obtain ⟨r, her, hqr⟩ := (isPositionOver_some_iff elem q).mp hpos
        obtain ⟨hdis, hmem⟩ := (isAcceptedType_true_iff cfg d.type).mp hacc
        simp only [Bool.true_and]
        by_cases hck : checkCanDrop cfg d.payload = true
        · rw [if_pos hck]
          obtain ⟨_, hpred⟩ := (checkCanDrop_true_iff cfg d.payload).mp hck
          constructor
          · intro hsome
            simp only [Option.some.injEq, Prod.mk.injEq] at hsome
            obtain ⟨hpl, hpq⟩ := hsome
            subst hpq
            exact ⟨d, r, rfl, rfl, her, hqr, hmem, hdis, hpred, hpl.symm⟩
          · rintro ⟨d', r', hd', hp', _her', _hqr', _hm', _hd', _hpr', hpl'⟩
            injection hd' with hdd
            subst hdd
            injection hp' with hqq
            subst hqq
            rw [hpl']
        · rw [if_neg hck]
          constructor
          · intro h
            cases h
          · rintro ⟨d', r', hd', _hp', _her', _hqr', _hm', hdis', hpred', _⟩
            injection hd' with hdd
            subst hdd
            exact absurd ((checkCanDrop_true_iff cfg d.payload).mpr
              ⟨hdis', hpred'⟩) hck
      · rw [if_neg hC]
        simp only [Bool.false_and, Bool.and_self, if_false]
        constructor
        · intro h
          cases h
        · rintro ⟨d', r', hd', hp', her', hqr', hmem', hdis', _hpred', _⟩
          injection hd' with hdd
          subst hdd
          injection hp' with hqq
          subst hqq
          refine absurd (Bool.and_eq_true_iff.mpr
            ⟨(isAcceptedType_true_iff cfg d.type).mpr ⟨hdis', hmem'⟩, ?_⟩) hC
          rw [hp]
          exact (isPositionOver_some_iff elem _).mpr ⟨r', her', hqr'⟩

/-- Claim **C2.** At pointer/touch release (with a drag active and the zone's
drag-state effect having run on the release-time drag state, as the
capture-phase ordering guarantees), the zone's `onDrop` fires iff, at
release time, the pointer position is inside the target's bounding
region, the accepted-type list contains the active drag type, the
target is not disabled, and the `canDrop` predicate (when present)
accepts the payload; when it fires it carries the payload and the final
position.  Because the right-hand side mentions only the release-time
drag state, a target hovered earlier in the gesture but not at release
can never receive the drop. -/
theorem C2_onDrop_commit_iff (cfg : DropZoneConfig T) (elem : Option Rect)
    (z0 : ZoneState T) (ctrl : CtrlState) (s : DragState T)
    (hz : ZInv z0) (hs : s.isDragging = true) (pl : T) (p : Point) :
    ZoneCall.drop pl p ∈
      (sysStep cfg elem ctrl (zoneEffect cfg elem z0 s).state s
        .release).zoneCalls ↔
      ∃ d r, s.data = some d ∧ s.position = some p ∧ elem = some r ∧
        isPointInRect p r = true ∧ d.type ∈ cfg.accept ∧
        cfg.disabled = false ∧
        (∀ f, cfg.canDrop = some f → f d.payload = true) ∧
        pl = d.payload := by
  rw [drop_mem_release_iff, and_iff_right hs]
  exact handleDrop_after_effect_iff cfg elem z0 s hz hs pl p

/-- The drop zone of the C2/C6 witnesses: id `grid`, accepting `block`,
semantic predicate constantly true. -/
def zcfgGrid : DropZoneConfig Unit := ⟨"grid", ["block"], some (fun _ => true), false⟩

/-- The 400×400 region of the witnesses. -/
def rect400 : Rect := ⟨0, 0, 400, 400, 400, 400⟩

/-- A drag of a `block` released at `(120,120)`. -/
def sGrid : DragState Unit :=
  (startDrag INITIAL_DRAG_STATE ⟨"b1", "block", ()⟩ ⟨120, 120⟩ ⟨0, 0⟩).1

/-- Witness for C2 at concrete inputs: dragging a `block` over the
400×400 grid and releasing at `(120,120)` fires the drop with the
payload and the final position. -/
theorem C2_onDrop_commit_iff_witness :
    ZInv (zoneInit (T := Unit)) ∧ sGrid.isDragging = true ∧
    ZoneCall.drop () ⟨120, 120⟩ ∈
      (sysStep zcfgGrid (some rect400) ctrlInit
        (zoneEffect zcfgGrid (some rect400) zoneInit sGrid).state sGrid
        .release).zoneCalls :=
  ⟨zInv_init, rfl,
    (C2_onDrop_commit_iff zcfgGrid (some rect400) zoneInit ctrlInit sGrid
        zInv_init rfl () ⟨120, 120⟩).mpr
      ⟨⟨"b1", "block", ()⟩, rect400, rfl, rfl, rfl,
        by norm_num [isPointInRect, rect400],
        by simp [zcfgGrid],
        rfl,
        by
          intro f hf
          simp only [zcfgGrid, Option.some.injEq] at hf
          subst hf
          rfl,
        rfl⟩⟩

/-- Claim **C6.** If Escape is pressed while a drag is in phase `dragging`
(on any reachable coordinator state), the coordinator resets to the
initial (idle) state, exactly one drag-end notification fires, carrying
`cancelled = true` and `dropZoneId = null`, and no `onDrop` of the
registered drop zone is invoked for that gesture: the keydown path
calls `cancelDrag` and bypasses the drop-commit (release) path
entirely. -/
theorem C6_escape_cancels (cfg : DropZoneConfig T) (elem : Option Rect)
    (ctrl : CtrlState) (z : ZoneState T) {s : DragState T}
    (hr : Reachable s) (hph : s.phase = DragPhase.dragging) :
    ∃ d, s.data = some d ∧
      (sysStep cfg elem ctrl z s .escape).drag = INITIAL_DRAG_STATE ∧
      (sysStep cfg elem ctrl z s .escape).drag.phase = DragPhase.idle ∧
      (sysStep cfg elem ctrl z s .escape).events =
        [DragEvent.dragEnd d s.position none true] ∧
      ∀ pl p, ZoneCall.drop pl p ∉
        (sysStep cfg elem ctrl z s .escape).zoneCalls := by
  obtain ⟨h1, _h2, h3, _h4⟩ := reachable_coordInv hr
  have hs : s.isDragging = true := h1.mpr hph
  obtain ⟨hdata, _, _⟩ := h3 hph
  cases hd : s.data with
  | none => exact absurd hd hdata
  | some d =>
    refine ⟨d, rfl, ?_, ?_, ?_, ?_⟩
    · simp [sysStep, hs, cancelDrag]
    · simp [sysStep, hs, cancelDrag, INITIAL_DRAG_STATE]
    · simp [sysStep, hs, cancelDrag, hd]
    · intro pl p
      simp only [sysStep, hs, if_true]
      exact zoneEffect_no_drop cfg elem z _ pl p

/-- Witness for C6 at a concrete reachable dragging state: Escape on
`sActive` resets the coordinator, fires one cancelled drag-end with a
null drop-zone id, and produces no drop call. -/
theorem C6_escape_cancels_witness :
    sActive.phase = DragPhase.dragging ∧
    ∃ d, sActive.data = some d ∧
      (sysStep zcfgGrid (some rect400) ctrlInit zoneInit sActive
        .escape).drag = INITIAL_DRAG_STATE ∧
      (sysStep zcfgGrid (some rect400) ctrlInit zoneInit sActive
        .escape).drag.phase = DragPhase.idle ∧
      (sysStep zcfgGrid (some rect400) ctrlInit zoneInit sActive
        .escape).events =
        [DragEvent.dragEnd d sActive.position none true] ∧
      ∀ pl p, ZoneCall.drop pl p ∉
        (sysStep zcfgGrid (some rect400) ctrlInit zoneInit sActive
          .escape).zoneCalls :=
  ⟨rfl, C6_escape_cancels zcfgGrid (some rect400) ctrlInit zoneInit
    (Reachable.step_start ⟨"a", "t", ()⟩ ⟨1, 2⟩ ⟨0, 0⟩ Reachable.init) rfl⟩

end DnD
